import Mathlib

/- Verification of the ordering and soft-delete core of a hierarchical
   note-taking backend (User -> Notebook -> Page -> Block).

   The sequence primitives below embed the raw-SQL helper
   `reposition_array_element` from api/models.py together with the PostgreSQL
   array functions it relies on (ARRAY_REMOVE, ARRAY_PREPEND, ARRAY_APPEND,
   ARRAY_CAT, array_position, and array slicing, including their NULL
   behaviour).  Identifiers (UUID columns) are embedded as naturals; the only
   property of UUIDs the code uses is decidable equality. -/

/-- PostgreSQL `ARRAY_REMOVE(l, e)`: removes every element equal to `e`. -/
def array_remove (l : List Nat) (e : Nat) : List Nat :=
  l.filter (fun x => x != e)

/-- PostgreSQL `array_position(l, x)`: 1-based index of the first occurrence
    of `x` in `l`, or NULL (`none`) when `x` is absent. -/
def array_position (l : List Nat) (x : Nat) : Option Nat :=
  match l with
  | [] => none
  | y :: t => if y = x then some 1 else (array_position t x).map (· + 1)

/-- The `after` branch of `reposition_array_element` in api/models.py:
    `ARRAY_CAT(r[:p], ARRAY_CAT(ARRAY[e], r[p+1:]))` where
    `r = ARRAY_REMOVE(col, e)` and `p = array_position(r, after)`.
    A 1-based slice `r[:p]` is `r.take p` and `r[p+1:]` is `r.drop p`.
    When `after` does not occur in `r`, `p` is NULL, both slices are NULL,
    and `ARRAY_CAT`'s NULL handling collapses the stored array to `[e]`. -/
def reposition_after (l : List Nat) (element aft : Nat) : List Nat :=
  match array_position (array_remove l element) aft with
  | some p => (array_remove l element).take p ++ [element] ++ (array_remove l element).drop p
  | none => [element]

/-- Embedding of `reposition_array_element(cur, instance, array_column,
    element, position, after)` from api/models.py: `position == "top"`
    prepends the element after removing it, `position == "bottom"` appends it
    after removing it, otherwise a supplied `after` triggers the slice-based
    reinsertion, and supplying no placement raises `ValueError`. -/
def reposition_array_element (arr : List Nat) (element : Nat)
    (position : Option String) (after : Option Nat) : Except String (List Nat) :=
  if position = some "top" then
    Except.ok (element :: array_remove arr element)
  else if position = some "bottom" then
    Except.ok (array_remove arr element ++ [element])
  else
    match after with
    | some a => Except.ok (reposition_after arr element a)
    | none =>
      Except.error "At least one of `position`(value=top|bottom) or `after`(uuid) is expected"

/-- The stored sequence after a reposition request: the updated array on
    success, the unchanged array when the call raises before updating. -/
def run_reposition (arr : List Nat) (element : Nat)
    (position : Option String) (after : Option Nat) : List Nat :=
  match reposition_array_element arr element position after with
  | Except.ok l => l
  | Except.error _ => arr

theorem mem_array_remove {x e : Nat} {l : List Nat} :
    x ∈ array_remove l e ↔ x ∈ l ∧ x ≠ e := by
  simp [array_remove, List.mem_filter]

theorem array_remove_nodup {l : List Nat} (h : l.Nodup) (e : Nat) :
    (array_remove l e).Nodup := h.filter _

theorem array_remove_eq_erase {l : List Nat} (h : l.Nodup) (e : Nat) :
    array_remove l e = l.erase e := (h.erase_eq_filter e).symm

theorem array_remove_of_not_mem {l : List Nat} {e : Nat} (h : e ∉ l) :
    array_remove l e = l := by
  rw [array_remove, List.filter_eq_self]
  intro a ha
  simp only [bne_iff_ne, ne_eq]
  exact fun hae => h (hae ▸ ha)

theorem array_remove_cons_self (e : Nat) (t : List Nat) :
    array_remove (e :: t) e = array_remove t e := by
  simp [array_remove, List.filter_cons]

theorem array_remove_cons_of_ne {x e : Nat} (h : x ≠ e) (t : List Nat) :
    array_remove (x :: t) e = x :: array_remove t e := by
  simp [array_remove, List.filter_cons, h]

theorem array_remove_append (l₁ l₂ : List Nat) (e : Nat) :
    array_remove (l₁ ++ l₂) e = array_remove l₁ e ++ array_remove l₂ e := by
  simp [array_remove, List.filter_append]

theorem array_position_append_cons {x : Nat} (l₁ l₂ : List Nat) (hx : x ∉ l₁) :
    array_position (l₁ ++ x :: l₂) x = some (l₁.length + 1) := by
  induction l₁ with
  | nil => simp [array_position]
  | cons y t ih =>
    have hy : ¬ y = x := fun h => hx (h ▸ List.mem_cons_self y t)
    have ht : x ∉ t := fun h => hx (List.mem_cons_of_mem _ h)
    simp [array_position, hy, ih ht]

theorem exists_first_occurrence_split {x : Nat} {r : List Nat} (h : x ∈ r) :
    ∃ l₁ l₂, r = l₁ ++ x :: l₂ ∧ x ∉ l₁ := by
  induction r with
  | nil => cases h
  | cons y t ih =>
    by_cases hyx : y = x
    · exact ⟨[], t, by simp [hyx], by simp⟩
    · have hxt : x ∈ t := by
        rcases List.mem_cons.mp h with h' | h'
        · exact absurd h'.symm hyx
        · exact h'
      obtain ⟨l₁, l₂, ht, hx⟩ := ih hxt
      refine ⟨y :: l₁, l₂, by rw [ht]; rfl, ?_⟩
      intro hmem
      rcases List.mem_cons.mp hmem with h' | h'
      · exact hyx h'.symm
      · exact hx h'

theorem reposition_after_of_split (l : List Nat) (element x : Nat) (l₁ l₂ : List Nat)
    (hrem : array_remove l element = l₁ ++ x :: l₂) (hx : x ∉ l₁) :
    reposition_after l element x = l₁ ++ x :: element :: l₂ := by
  unfold reposition_after
  rw [hrem, array_position_append_cons l₁ l₂ hx]
  dsimp only
  have h1 : l₁ ++ x :: l₂ = (l₁ ++ [x]) ++ l₂ := by simp
  have hlen : (l₁ ++ [x]).length = l₁.length + 1 := by simp
  rw [h1, List.take_left' hlen, List.drop_left' hlen]
  simp

theorem reposition_top_perm {l : List Nat} {e : Nat} (he : e ∈ l) (hnd : l.Nodup) :
    List.Perm (e :: array_remove l e) l := by
  rw [array_remove_eq_erase hnd]
  exact (List.perm_cons_erase he).symm

theorem reposition_bottom_perm {l : List Nat} {e : Nat} (he : e ∈ l) (hnd : l.Nodup) :
    List.Perm (array_remove l e ++ [e]) l := by
  have h1 : List.Perm (array_remove l e ++ [e]) (e :: array_remove l e) := by
    have h := @List.perm_middle Nat e (array_remove l e) []
    rw [List.append_nil] at h
    exact h
  exact h1.trans (reposition_top_perm he hnd)

theorem reposition_after_perm {l : List Nat} {element a : Nat}
    (he : element ∈ l) (ha : a ∈ l) (hne : a ≠ element) (hnd : l.Nodup) :
    List.Perm (reposition_after l element a) l := by
  have hmem : a ∈ array_remove l element := mem_array_remove.mpr ⟨ha, hne⟩
  obtain ⟨l₁, l₂, hsplit, hx⟩ := exists_first_occurrence_split hmem
  rw [reposition_after_of_split l element a l₁ l₂ hsplit hx]
  have h1 : l₁ ++ a :: element :: l₂ = (l₁ ++ [a]) ++ element :: l₂ := by simp
  have h2 : List.Perm ((l₁ ++ [a]) ++ element :: l₂) (element :: ((l₁ ++ [a]) ++ l₂)) :=
    List.perm_middle
  have h3 : (l₁ ++ [a]) ++ l₂ = array_remove l element := by rw [hsplit]; simp
  rw [h1]
  refine h2.trans ?_
  rw [h3, array_remove_eq_erase hnd]
  exact (List.perm_cons_erase he).symm

theorem run_reposition_perm {l : List Nat} {e : Nat} {pos : Option String} {aft : Option Nat}
    (he : e ∈ l) (hnd : l.Nodup)
    (haft : pos ≠ some "top" → pos ≠ some "bottom" → ∀ a, aft = some a → a ∈ l ∧ a ≠ e) :
    List.Perm (run_reposition l e pos aft) l := by
  unfold run_reposition reposition_array_element
  by_cases h1 : pos = some "top"
  · simpa [h1] using reposition_top_perm he hnd
  · by_cases h2 : pos = some "bottom"
    · simpa [h1, h2] using reposition_bottom_perm he hnd
    · cases aft with
      | some a =>
        obtain ⟨ha, hne⟩ := haft h1 h2 a rfl
        simpa [h1, h2] using reposition_after_perm he ha hne hnd
      | none => simp [h1, h2]

/-- C5: `Remove` of an id already absent is a no-op, and `Reposition` whose
    target state is already achieved (element already first for `top`, already
    last for `bottom`, already immediately after the sibling for `after`) maps
    a duplicate-free sequence to itself. -/
theorem remove_reposition_idempotent :
    (∀ (l : List Nat) (e : Nat), e ∉ l → array_remove l e = l) ∧
    (∀ (t : List Nat) (e : Nat) (aft : Option Nat), (e :: t).Nodup →
      reposition_array_element (e :: t) e (some "top") aft = Except.ok (e :: t)) ∧
    (∀ (t : List Nat) (e : Nat) (aft : Option Nat), (t ++ [e]).Nodup →
      reposition_array_element (t ++ [e]) e (some "bottom") aft = Except.ok (t ++ [e])) ∧
    (∀ (l₁ l₂ : List Nat) (x e : Nat), (l₁ ++ x :: e :: l₂).Nodup →
      reposition_array_element (l₁ ++ x :: e :: l₂) e none (some x) =
        Except.ok (l₁ ++ x :: e :: l₂)) := by
  refine ⟨fun l e h => array_remove_of_not_mem h, ?_, ?_, ?_⟩
  · intro t e aft hnd
    have het : e ∉ t := (List.nodup_cons.mp hnd).1
    have hrem : array_remove (e :: t) e = t := by
      rw [array_remove_cons_self, array_remove_of_not_mem het]
    simp [reposition_array_element, hrem]
  · intro t e aft hnd
    have het : e ∉ t := by
      simp only [List.nodup_append, List.nodup_cons] at hnd
      intro h
      exact hnd.2.2 h (List.mem_singleton_self e)
    have hrem : array_remove (t ++ [e]) e = t := by
      rw [array_remove_append, array_remove_of_not_mem het, array_remove_cons_self]
      simp [array_remove]
    simp [reposition_array_element, hrem]
  · intro l₁ l₂ x e hnd
    simp only [List.nodup_append, List.nodup_cons, List.mem_cons] at hnd
    obtain ⟨hnd₁, ⟨hx₂, he₂, hnd₂⟩, hdisj⟩ := hnd
    have hxe : x ≠ e := fun h => hx₂ (Or.inl h)
    have hel₁ : e ∉ l₁ := fun h => hdisj h (List.mem_cons_of_mem x (List.mem_cons_self e l₂))
    have hxl₁ : x ∉ l₁ := fun h => hdisj h (List.mem_cons_self x (e :: l₂))
    have hrem : array_remove (l₁ ++ x :: e :: l₂) e = l₁ ++ x :: l₂ := by
      rw [array_remove_append, array_remove_of_not_mem hel₁,
        array_remove_cons_of_ne hxe, array_remove_cons_self, array_remove_of_not_mem he₂]
    have hres := reposition_after_of_split (l₁ ++ x :: e :: l₂) e x l₁ l₂ hrem hxl₁
    simp [reposition_array_element, hres]

theorem remove_reposition_idempotent_witness :
    ((3 : Nat) ∉ [1, 2] ∧ ([5, 1, 2] : List Nat).Nodup ∧
      ([1, 2, 5] : List Nat).Nodup ∧ ([9, 4, 7, 8] : List Nat).Nodup) ∧
    array_remove [1, 2] 3 = [1, 2] ∧
    reposition_array_element [5, 1, 2] 5 (some "top") none = Except.ok [5, 1, 2] ∧
    reposition_array_element [1, 2, 5] 5 (some "bottom") none = Except.ok [1, 2, 5] ∧
    reposition_array_element [9, 4, 7, 8] 7 none (some 4) = Except.ok [9, 4, 7, 8] :=
  ⟨⟨by decide, by decide, by decide, by decide⟩,
   remove_reposition_idempotent.1 [1, 2] 3 (by decide),
   remove_reposition_idempotent.2.1 [1, 2] 5 none (by decide),
   remove_reposition_idempotent.2.2.1 [1, 2] 5 none (by decide),
   remove_reposition_idempotent.2.2.2 [9] [8] 4 7 (by decide)⟩

/-- C6: on a page with blocks [b1..b5] = [1..5], `Reposition(b3, Top)` yields
    [b3,b1,b2,b4,b5]; repeating it leaves the order unchanged;
    `Reposition(b1, Bottom)` then yields [b3,b2,b4,b5,b1]; and
    `Reposition(b5, After=b2)` yields [b3,b2,b5,b4,b1] — exactly the scenario
    of `Page.reposition_block` exercised in api/tests.py. -/
theorem reposition_block_scenario :
    reposition_array_element [1, 2, 3, 4, 5] 3 (some "top") none = Except.ok [3, 1, 2, 4, 5] ∧
    reposition_array_element [3, 1, 2, 4, 5] 3 (some "top") none = Except.ok [3, 1, 2, 4, 5] ∧
    reposition_array_element [3, 1, 2, 4, 5] 1 (some "bottom") none = Except.ok [3, 2, 4, 5, 1] ∧
    reposition_array_element [3, 2, 4, 5, 1] 5 none (some 2) = Except.ok [3, 2, 5, 4, 1] :=
  ⟨rfl, rfl, rfl, rfl⟩

/-- C7: calling `reposition_array_element` with neither a position nor an
    after-sibling raises `ValueError` naming the required fields, and the
    stored sequence is unchanged. -/
theorem missing_placement_errors (l : List Nat) (e : Nat) :
    reposition_array_element l e none none =
      Except.error "At least one of `position`(value=top|bottom) or `after`(uuid) is expected" ∧
    run_reposition l e none none = l :=
  ⟨rfl, rfl⟩

/-- C10: repositioning an id that is not in the sequence does not fail:
    placement `top` prepends it and placement `bottom` appends it, so
    `Reposition` can insert an id that was never a member. -/
theorem reposition_inserts_nonmember (l : List Nat) (e : Nat) (h : e ∉ l) :
    reposition_array_element l e (some "top") none = Except.ok (e :: l) ∧
    reposition_array_element l e (some "bottom") none = Except.ok (l ++ [e]) := by
  simp [reposition_array_element, array_remove_of_not_mem h]

theorem reposition_inserts_nonmember_witness :
    ((9 : Nat) ∉ [1, 2]) ∧
    reposition_array_element [1, 2] 9 (some "top") none = Except.ok [9, 1, 2] :=
  ⟨by decide, (reposition_inserts_nonmember [1, 2] 9 (by decide)).1⟩

/- The durable-store state machine.  Each parent-side ordering column
   (`custom_notebook_order` on User, `custom_page_order` on Notebook,
   `block_order` on Page) maps a row's primary key to its stored array, and
   each child table is modelled by the foreign key of its live rows
   (`none` = no such row).  The lifecycle hooks `save`/`delete` of
   api/models.py and the `move_pages` view of api/views.py become state
   transitions on this structure. -/
structure DB where
  custom_notebook_order : Nat → List Nat
  notebook_user : Nat → Option Nat
  custom_page_order : Nat → List Nat
  page_notebook : Nat → Option Nat
  block_order : Nat → List Nat
  block_page : Nat → Option Nat

/-- `Notebook.save` on a new row (api/models.py): `ARRAY_APPEND` the new pk to
    the owner's `custom_notebook_order` and insert the row; the fresh row's
    `custom_page_order` takes its column default, the empty array. -/
def create_notebook (db : DB) (u nb : Nat) : DB :=
  { db with
    custom_notebook_order := fun v =>
      if v = u then db.custom_notebook_order u ++ [nb] else db.custom_notebook_order v,
    notebook_user := fun m => if m = nb then some u else db.notebook_user m,
    custom_page_order := fun m => if m = nb then [] else db.custom_page_order m }

/-- `Notebook.delete` (api/models.py): `ARRAY_REMOVE` the pk from the owner's
    `custom_notebook_order` and delete the row; the cascading foreign keys
    also delete every Page of the notebook and every Block of those pages,
    arrays of the deleted rows vanishing with them. -/
def delete_notebook (db : DB) (u nb : Nat) : DB :=
  { db with
    custom_notebook_order := fun v =>
      if v = u then array_remove (db.custom_notebook_order u) nb
      else db.custom_notebook_order v,
    notebook_user := fun m => if m = nb then none else db.notebook_user m,
    page_notebook := fun pg =>
      if db.page_notebook pg = some nb then none else db.page_notebook pg,
    block_page := fun b =>
      match db.block_page b with
      | some pg => if db.page_notebook pg = some nb then none else some pg
      | none => none }

/-- `Page.save` on a new row (api/models.py): `ARRAY_APPEND` the new pk to the
    notebook's `custom_page_order` and insert the row with an empty
    `block_order`. -/
def create_page (db : DB) (nb pg : Nat) : DB :=
  { db with
    custom_page_order := fun m =>
      if m = nb then db.custom_page_order nb ++ [pg] else db.custom_page_order m,
    page_notebook := fun q => if q = pg then some nb else db.page_notebook q,
    block_order := fun q => if q = pg then [] else db.block_order q }

/-- `Page.delete` (api/models.py): `ARRAY_REMOVE` the pk from the notebook's
    `custom_page_order` and delete the row, cascading to the page's blocks. -/
def delete_page (db : DB) (nb pg : Nat) : DB :=
  { db with
    custom_page_order := fun m =>
      if m = nb then array_remove (db.custom_page_order nb) pg
      else db.custom_page_order m,
    page_notebook := fun q => if q = pg then none else db.page_notebook q,
    block_page := fun b =>
      if db.block_page b = some pg then none else db.block_page b }

/-- `Block.save` on a new row (api/models.py): `ARRAY_APPEND` the new pk to the
    page's `block_order` and insert the row. -/
def create_block (db : DB) (pg b : Nat) : DB :=
  { db with
    block_order := fun q =>
      if q = pg then db.block_order pg ++ [b] else db.block_order q,
    block_page := fun c => if c = b then some pg else db.block_page c }

/-- `Block.delete` (api/models.py): `ARRAY_REMOVE` the pk from the page's
    `block_order` and delete the row. -/
def delete_block (db : DB) (pg b : Nat) : DB :=
  { db with
    block_order := fun q =>
      if q = pg then array_remove (db.block_order pg) b else db.block_order q,
    block_page := fun c => if c = b then none else db.block_page c }

/-- `User.reposition_notebook` (api/models.py): run `reposition_array_element`
    against the user's `custom_notebook_order`; a raised `ValueError` leaves
    the stored array unchanged. -/
def reposition_notebook (db : DB) (u element : Nat)
    (position : Option String) (after : Option Nat) : DB :=
  { db with
    custom_notebook_order := fun v =>
      if v = u then run_reposition (db.custom_notebook_order u) element position after
      else db.custom_notebook_order v }

/-- `Notebook.reposition_page` (api/models.py). -/
def reposition_page_of_notebook (db : DB) (nb element : Nat)
    (position : Option String) (after : Option Nat) : DB :=
  { db with
    custom_page_order := fun m =>
      if m = nb then run_reposition (db.custom_page_order nb) element position after
      else db.custom_page_order m }

/-- `Page.reposition_block` (api/models.py). -/
def reposition_block_of_page (db : DB) (pg element : Nat)
    (position : Option String) (after : Option Nat) : DB :=
  { db with
    block_order := fun q =>
      if q = pg then run_reposition (db.block_order pg) element position after
      else db.block_order q }

/-- Result set of `ARRAY(SELECT UNNEST(old) EXCEPT SELECT UNNEST(removed))`
    (the source-order update of the `move_pages` view): SQL `EXCEPT` returns
    the distinct values of `old` that are not in `removed`, in an order the
    SQL standard leaves unspecified, so any permutation of that distinct set
    is an admissible stored array. -/
def except_removal (old removed result : List Nat) : Prop :=
  List.Perm result ((old.filter (fun x => decide (x ∉ removed))).dedup)

/-- The three UPDATE statements of the `move_pages` view (api/views.py), run
    in one transaction: reassign `notebook_id` of every existing page row
    whose id is listed, rebuild the source notebook's `custom_page_order` by
    SQL `EXCEPT`, and `ARRAY_CAT` the listed ids onto the destination
    notebook's `custom_page_order`. -/
def apply_move_pages (db : DB) (src dst : Nat) (pgs new_src : List Nat) : DB :=
  { db with
    page_notebook := fun p =>
      if p ∈ pgs ∧ (db.page_notebook p).isSome then some dst else db.page_notebook p,
    custom_page_order := fun m =>
      if m = src then new_src
      else if m = dst then db.custom_page_order dst ++ pgs
      else db.custom_page_order m }

/-- The `move_pages` view (api/views.py) as a relation between the state
    before and after the request: both notebooks must be rows owned by the
    requesting user (the pk filter returning fewer than two rows yields 404,
    which also forces the two pks to differ), and the body performs the three
    updates of `apply_move_pages` with some admissible `EXCEPT` result.  The
    view never checks that the listed page ids belong to the source
    notebook. -/
def move_pages (db : DB) (actor src dst : Nat) (pgs : List Nat) (db' : DB) : Prop :=
  db.notebook_user src = some actor ∧ db.notebook_user dst = some actor ∧ src ≠ dst ∧
  ∃ new_src, except_removal (db.custom_page_order src) pgs new_src ∧
    db' = apply_move_pages db src dst pgs new_src

/-- One request-level operation exactly as the code admits it: creations use a
    fresh uuid4 primary key, deletions operate on a fetched (hence live) row,
    but reposition performs no membership check on the element or the
    after-sibling (the explicit TODO in api/models.py), and the move does not
    check that the listed page ids belong to the source notebook. -/
inductive Step : DB → DB → Prop
  | createNotebook (db : DB) (u nb : Nat) :
      db.notebook_user nb = none →
      (∀ pg, db.page_notebook pg ≠ some nb) →
      Step db (create_notebook db u nb)
  | deleteNotebook (db : DB) (u nb : Nat) :
      db.notebook_user nb = some u →
      Step db (delete_notebook db u nb)
  | createPage (db : DB) (nb pg : Nat) :
      (db.notebook_user nb).isSome →
      db.page_notebook pg = none →
      (∀ b, db.block_page b ≠ some pg) →
      Step db (create_page db nb pg)
  | deletePage (db : DB) (nb pg : Nat) :
      db.page_notebook pg = some nb →
      Step db (delete_page db nb pg)
  | createBlock (db : DB) (pg b : Nat) :
      (db.page_notebook pg).isSome →
      db.block_page b = none →
      Step db (create_block db pg b)
  | deleteBlock (db : DB) (pg b : Nat) :
      db.block_page b = some pg →
      Step db (delete_block db pg b)
  | repositionNotebook (db : DB) (u element : Nat)
      (position : Option String) (after : Option Nat) :
      Step db (reposition_notebook db u element position after)
  | repositionPage (db : DB) (nb element : Nat)
      (position : Option String) (after : Option Nat) :
      (db.notebook_user nb).isSome →
      Step db (reposition_page_of_notebook db nb element position after)
  | repositionBlock (db : DB) (pg element : Nat)
      (position : Option String) (after : Option Nat) :
      (db.page_notebook pg).isSome →
      Step db (reposition_block_of_page db pg element position after)
  | movePages (db db' : DB) (actor src dst : Nat) (pgs : List Nat) :
      move_pages db actor src dst pgs db' →
      Step db db'

/-- The operations of `Step` restricted to valid arguments: every repositioned
    element is a live child of the targeted parent, an after-sibling is a live
    child of the same parent distinct from the element, and moved page ids are
    pairwise distinct and all belong to the source notebook. -/
inductive StepValid : DB → DB → Prop
  | createNotebook (db : DB) (u nb : Nat) :
      db.notebook_user nb = none →
      (∀ pg, db.page_notebook pg ≠ some nb) →
      StepValid db (create_notebook db u nb)
  | deleteNotebook (db : DB) (u nb : Nat) :
      db.notebook_user nb = some u →
      StepValid db (delete_notebook db u nb)
  | createPage (db : DB) (nb pg : Nat) :
      (db.notebook_user nb).isSome →
      db.page_notebook pg = none →
      (∀ b, db.block_page b ≠ some pg) →
      StepValid db (create_page db nb pg)
  | deletePage (db : DB) (nb pg : Nat) :
      db.page_notebook pg = some nb →
      StepValid db (delete_page db nb pg)
  | createBlock (db : DB) (pg b : Nat) :
      (db.page_notebook pg).isSome →
      db.block_page b = none →
      StepValid db (create_block db pg b)
  | deleteBlock (db : DB) (pg b : Nat) :
      db.block_page b = some pg →
      StepValid db (delete_block db pg b)
  | repositionNotebook (db : DB) (u element : Nat)
      (position : Option String) (after : Option Nat) :
      db.notebook_user element = some u →
      (position ≠ some "top" → position ≠ some "bottom" →
        ∀ a, after = some a → db.notebook_user a = some u ∧ a ≠ element) →
      StepValid db (reposition_notebook db u element position after)
  | repositionPage (db : DB) (nb element : Nat)
      (position : Option String) (after : Option Nat) :
      db.page_notebook element = some nb →
      (position ≠ some "top" → position ≠ some "bottom" →
        ∀ a, after = some a → db.page_notebook a = some nb ∧ a ≠ element) →
      StepValid db (reposition_page_of_notebook db nb element position after)
  | repositionBlock (db : DB) (pg element : Nat)
      (position : Option String) (after : Option Nat) :
      db.block_page element = some pg →
      (position ≠ some "top" → position ≠ some "bottom" →
        ∀ a, after = some a → db.block_page a = some pg ∧ a ≠ element) →
      StepValid db (reposition_block_of_page db pg element position after)
  | movePages (db : DB) (actor src dst : Nat) (pgs new_src : List Nat) :
      db.notebook_user src = some actor →
      db.notebook_user dst = some actor →
      src ≠ dst →
      pgs.Nodup →
      (∀ p, p ∈ pgs → db.page_notebook p = some src) →
      except_removal (db.custom_page_order src) pgs new_src →
      StepValid db (apply_move_pages db src dst pgs new_src)

/-- Finite sequences of valid operations. -/
inductive StepsValid : DB → DB → Prop
  | refl (db : DB) : StepsValid db db
  | tail (db db' db'' : DB) :
      StepsValid db db' → StepValid db' db'' → StepsValid db db''

/-- Order-sequence consistency: at every level the parent's stored array has
    no duplicates and its element set is exactly the set of live child rows
    whose foreign key points at that parent. -/
def OrderInv (db : DB) : Prop :=
  (∀ u, (db.custom_notebook_order u).Nodup ∧
    ∀ nb, nb ∈ db.custom_notebook_order u ↔ db.notebook_user nb = some u) ∧
  (∀ nb, (db.notebook_user nb).isSome →
    (db.custom_page_order nb).Nodup ∧
    ∀ pg, pg ∈ db.custom_page_order nb ↔ db.page_notebook pg = some nb) ∧
  (∀ pg, (db.page_notebook pg).isSome →
    (db.block_order pg).Nodup ∧
    ∀ b, b ∈ db.block_order pg ↔ db.block_page b = some pg)

theorem nodup_append_singleton {l : List Nat} {e : Nat} (h : l.Nodup) (he : e ∉ l) :
    (l ++ [e]).Nodup := by
  simp [List.nodup_append, h, he]

theorem inv_create_notebook {db : DB} (u nb : Nat)
    (h : OrderInv db) (hfresh : db.notebook_user nb = none)
    (hnp : ∀ pg, db.page_notebook pg ≠ some nb) :
    OrderInv (create_notebook db u nb) := by
  obtain ⟨h1, h2, h3⟩ := h
  have hnmem : nb ∉ db.custom_notebook_order u := by
    rw [(h1 u).2 nb, hfresh]
    simp
  refine ⟨fun v => ⟨?_, fun m => ?_⟩, fun m hm => ?_, h3⟩
  · by_cases hv : v = u
    · subst hv
      simp only [create_notebook, if_pos rfl]
      exact nodup_append_singleton (h1 v).1 hnmem
    · simpa [create_notebook, hv] using (h1 v).1
  · by_cases hv : v = u
    · subst hv
      by_cases hm : m = nb
      · subst hm
        simp [create_notebook]
      · simp [create_notebook, hm, (h1 v).2 m]
    · have huv : u ≠ v := fun hh => hv hh.symm
      by_cases hm : m = nb
      · subst hm
        simp [create_notebook, hv, huv, (h1 v).2 m, hfresh]
      · simp [create_notebook, hv, hm, (h1 v).2 m]
  · by_cases hm2 : m = nb
    · subst hm2
      refine ⟨by simp [create_notebook], fun pg => ?_⟩
      simp [create_notebook, hnp pg]
    · have hms : (db.notebook_user m).isSome := by
        simpa [create_notebook, hm2] using hm
      refine ⟨by simpa [create_notebook, hm2] using (h2 m hms).1, fun pg => ?_⟩
      simpa [create_notebook, hm2] using (h2 m hms).2 pg

theorem inv_delete_notebook {db : DB} (u nb : Nat)
    (h : OrderInv db) (hnb : db.notebook_user nb = some u) :
    OrderInv (delete_notebook db u nb) := by
  obtain ⟨h1, h2, h3⟩ := h
  refine ⟨fun v => ⟨?_, fun m => ?_⟩, fun m hm => ?_, fun pg hpg => ?_⟩
  · by_cases hv : v = u
    · subst hv
      simp only [delete_notebook, if_pos rfl]
      exact array_remove_nodup (h1 v).1 nb
    · simpa [delete_notebook, hv] using (h1 v).1
  · by_cases hv : v = u
    · subst hv
      by_cases hm2 : m = nb
      · subst hm2
        simp [delete_notebook, mem_array_remove]
      · simp [delete_notebook, hm2, mem_array_remove, (h1 v).2 m]
    · have huv : u ≠ v := fun hh => hv hh.symm
      by_cases hm2 : m = nb
      · subst hm2
        simp [delete_notebook, hv, (h1 v).2 m, hnb, huv]
      · simp [delete_notebook, hv, hm2, (h1 v).2 m]
  · have hm2 : m ≠ nb := by
      intro hh
      subst hh
      simp [delete_notebook] at hm
    have hms : (db.notebook_user m).isSome := by
      simpa [delete_notebook, hm2] using hm
    obtain ⟨hnd, hmem⟩ := h2 m hms
    refine ⟨by simpa [delete_notebook] using hnd, fun pg => ?_⟩
    have hnbm : nb ≠ m := fun hh => hm2 hh.symm
    by_cases hpg : db.page_notebook pg = some nb
    · simp [delete_notebook, hpg, hmem pg, hnbm]
    · simp [delete_notebook, hpg, hmem pg]
  · have hnot : ¬ db.page_notebook pg = some nb := by
      intro hh
      simp [delete_notebook, hh] at hpg
    have hps : (db.page_notebook pg).isSome := by
      simpa [delete_notebook, hnot] using hpg
    obtain ⟨hnd, hmem⟩ := h3 pg hps
    refine ⟨by simpa [delete_notebook] using hnd, fun b => ?_⟩
    cases hbp : db.block_page b with
    | none => simp [delete_notebook, hbp, hmem b]
    | some q =>
      by_cases hq : db.page_notebook q = some nb
      · have hqpg : q ≠ pg := fun hh => hnot (hh ▸ hq)
        simp [delete_notebook, hbp, hq, hmem b, hqpg]
      · simp [delete_notebook, hbp, hq, hmem b]

theorem inv_create_page {db : DB} (nb pg : Nat)
    (h : OrderInv db) (hlive : (db.notebook_user nb).isSome)
    (hfresh : db.page_notebook pg = none)
    (hnb : ∀ b, db.block_page b ≠ some pg) :
    OrderInv (create_page db nb pg) := by
  obtain ⟨h1, h2, h3⟩ := h
  refine ⟨h1, fun m hm => ?_, fun q hq => ?_⟩
  · have hm' : (db.notebook_user m).isSome := hm
    by_cases hm2 : m = nb
    · subst hm2
      have hnmem : pg ∉ db.custom_page_order m := by
        rw [(h2 m hm').2 pg, hfresh]
        simp
      refine ⟨?_, fun q => ?_⟩
      · simp only [create_page, if_pos rfl]
        exact nodup_append_singleton (h2 m hm').1 hnmem
      · by_cases hq2 : q = pg
        · subst hq2
          simp [create_page]
        · simp [create_page, hq2, (h2 m hm').2 q]
    · have hnbm : nb ≠ m := fun hh => hm2 hh.symm
      refine ⟨by simpa [create_page, hm2] using (h2 m hm').1, fun q => ?_⟩
      by_cases hq2 : q = pg
      · subst hq2
        simp [create_page, hm2, hfresh, hnbm, (h2 m hm').2 q]
      · simp [create_page, hm2, hq2, (h2 m hm').2 q]
  · by_cases hq2 : q = pg
    · subst hq2
      refine ⟨by simp [create_page], fun b => ?_⟩
      simp [create_page, hnb b]
    · have hqs : (db.page_notebook q).isSome := by
        simpa [create_page, hq2] using hq
      refine ⟨by simpa [create_page, hq2] using (h3 q hqs).1, fun b => ?_⟩
      simpa [create_page, hq2] using (h3 q hqs).2 b

theorem inv_delete_page {db : DB} (nb pg : Nat)
    (h : OrderInv db) (hpg : db.page_notebook pg = some nb) :
    OrderInv (delete_page db nb pg) := by
  obtain ⟨h1, h2, h3⟩ := h
  refine ⟨h1, fun m hm => ?_, fun q hq => ?_⟩
  · have hm' : (db.notebook_user m).isSome := hm
    by_cases hm2 : m = nb
    · subst hm2
      refine ⟨?_, fun q => ?_⟩
      · simp only [delete_page, if_pos rfl]
        exact array_remove_nodup (h2 m hm').1 pg
      · by_cases hq2 : q = pg
        · subst hq2
          simp [delete_page, mem_array_remove]
        · simp [delete_page, hq2, mem_array_remove, (h2 m hm').2 q]
    · have hnbm : nb ≠ m := fun hh => hm2 hh.symm
      refine ⟨by simpa [delete_page, hm2] using (h2 m hm').1, fun q => ?_⟩
      by_cases hq2 : q = pg
      · subst hq2
        simp [delete_page, hm2, hpg, hnbm, (h2 m hm').2 q]
      · simp [delete_page, hm2, hq2, (h2 m hm').2 q]
  · have hq2 : q ≠ pg := by
      intro hh
      subst hh
      simp [delete_page] at hq
    have hqs : (db.page_notebook q).isSome := by
      simpa [delete_page, hq2] using hq
    obtain ⟨hnd, hmem⟩ := h3 q hqs
    refine ⟨by simpa [delete_page] using hnd, fun b => ?_⟩
    have hpq : pg ≠ q := fun hh => hq2 hh.symm
    by_cases hb : db.block_page b = some pg
    · simp [delete_page, hb, hmem b, hpq]
    · simp [delete_page, hb, hmem b]

theorem inv_create_block {db : DB} (pg b : Nat)
    (h : OrderInv db) (hlive : (db.page_notebook pg).isSome)
    (hfresh : db.block_page b = none) :
    OrderInv (create_block db pg b) := by
  obtain ⟨h1, h2, h3⟩ := h
  refine ⟨h1, h2, fun q hq => ?_⟩
  have hq' : (db.page_notebook q).isSome := hq
  by_cases hq2 : q = pg
  · subst hq2
    have hnmem : b ∉ db.block_order q := by
      rw [(h3 q hq').2 b, hfresh]
      simp
    refine ⟨?_, fun c => ?_⟩
    · simp only [create_block, if_pos rfl]
      exact nodup_append_singleton (h3 q hq').1 hnmem
    · by_cases hc : c = b
      · subst hc
        simp [create_block]
      · simp [create_block, hc, (h3 q hq').2 c]
  · have hpq : pg ≠ q := fun hh => hq2 hh.symm
    refine ⟨by simpa [create_block, hq2] using (h3 q hq').1, fun c => ?_⟩
    by_cases hc : c = b
    · subst hc
      simp [create_block, hq2, hfresh, hpq, (h3 q hq').2 c]
    · simp [create_block, hq2, hc, (h3 q hq').2 c]

theorem inv_delete_block {db : DB} (pg b : Nat)
    (h : OrderInv db) (hb : db.block_page b = some pg) :
    OrderInv (delete_block db pg b) := by
  obtain ⟨h1, h2, h3⟩ := h
  refine ⟨h1, h2, fun q hq => ?_⟩
  have hq' : (db.page_notebook q).isSome := hq
  by_cases hq2 : q = pg
  · subst hq2
    refine ⟨?_, fun c => ?_⟩
    · simp only [delete_block, if_pos rfl]
      exact array_remove_nodup (h3 q hq').1 b
    · by_cases hc : c = b
      · subst hc
        simp [delete_block, mem_array_remove]
      · simp [delete_block, hc, mem_array_remove, (h3 q hq').2 c]
  · have hpq : pg ≠ q := fun hh => hq2 hh.symm
    refine ⟨by simpa [delete_block, hq2] using (h3 q hq').1, fun c => ?_⟩
    by_cases hc : c = b
    · subst hc
      simp [delete_block, hq2, hb, hpq, (h3 q hq').2 c]
    · simp [delete_block, hq2, hc, (h3 q hq').2 c]

theorem inv_reposition_notebook {db : DB} (u element : Nat)
    (position : Option String) (after : Option Nat) (h : OrderInv db)
    (he : db.notebook_user element = some u)
    (haft : position ≠ some "top" → position ≠ some "bottom" →
      ∀ a, after = some a → db.notebook_user a = some u ∧ a ≠ element) :
    OrderInv (reposition_notebook db u element position after) := by
  obtain ⟨h1, h2, h3⟩ := h
  have hmem : element ∈ db.custom_notebook_order u := ((h1 u).2 element).mpr he
  have haft2 : position ≠ some "top" → position ≠ some "bottom" →
      ∀ a, after = some a → a ∈ db.custom_notebook_order u ∧ a ≠ element := by
    intro hp1 hp2 a ha
    obtain ⟨ha1, ha2⟩ := haft hp1 hp2 a ha
    exact ⟨((h1 u).2 a).mpr ha1, ha2⟩
  have hperm := run_reposition_perm hmem (h1 u).1 haft2
  refine ⟨fun v => ?_, h2, h3⟩
  by_cases hv : v = u
  · subst hv
    have hcno : (reposition_notebook db v element position after).custom_notebook_order v
        = run_reposition (db.custom_notebook_order v) element position after := by
      simp [reposition_notebook]
    refine ⟨?_, fun m => ?_⟩
    · rw [hcno]
      exact hperm.nodup_iff.mpr (h1 v).1
    · rw [hcno, hperm.mem_iff]
      exact (h1 v).2 m
  · simpa [reposition_notebook, hv] using h1 v

theorem inv_reposition_page {db : DB} (nb element : Nat)
    (position : Option String) (after : Option Nat) (h : OrderInv db)
    (he : db.page_notebook element = some nb)
    (haft : position ≠ some "top" → position ≠ some "bottom" →
      ∀ a, after = some a → db.page_notebook a = some nb ∧ a ≠ element) :
    OrderInv (reposition_page_of_notebook db nb element position after) := by
  obtain ⟨h1, h2, h3⟩ := h
  refine ⟨h1, fun m hm => ?_, h3⟩
  have hm' : (db.notebook_user m).isSome := hm
  by_cases hm2 : m = nb
  · subst hm2
    have hmem : element ∈ db.custom_page_order m := ((h2 m hm').2 element).mpr he
    have haft2 : position ≠ some "top" → position ≠ some "bottom" →
        ∀ a, after = some a → a ∈ db.custom_page_order m ∧ a ≠ element := by
      intro hp1 hp2 a ha
      obtain ⟨ha1, ha2⟩ := haft hp1 hp2 a ha
      exact ⟨((h2 m hm').2 a).mpr ha1, ha2⟩
    have hperm := run_reposition_perm hmem (h2 m hm').1 haft2
    have hcpo : (reposition_page_of_notebook db m element position after).custom_page_order m
        = run_reposition (db.custom_page_order m) element position after := by
      simp [reposition_page_of_notebook]
    refine ⟨?_, fun pg => ?_⟩
    · rw [hcpo]
      exact hperm.nodup_iff.mpr (h2 m hm').1
    · rw [hcpo, hperm.mem_iff]
      exact (h2 m hm').2 pg
  · simpa [reposition_page_of_notebook, hm2] using h2 m hm'

theorem inv_reposition_block {db : DB} (pg element : Nat)
    (position : Option String) (after : Option Nat) (h : OrderInv db)
    (he : db.block_page element = some pg)
    (haft : position ≠ some "top" → position ≠ some "bottom" →
      ∀ a, after = some a → db.block_page a = some pg ∧ a ≠ element) :
    OrderInv (reposition_block_of_page db pg element position after) := by
  obtain ⟨h1, h2, h3⟩ := h
  refine ⟨h1, h2, fun q hq => ?_⟩
  have hq' : (db.page_notebook q).isSome := hq
  by_cases hq2 : q = pg
  · subst hq2
    have hmem : element ∈ db.block_order q := ((h3 q hq').2 element).mpr he
    have haft2 : position ≠ some "top" → position ≠ some "bottom" →
        ∀ a, after = some a → a ∈ db.block_order q ∧ a ≠ element := by
      intro hp1 hp2 a ha
      obtain ⟨ha1, ha2⟩ := haft hp1 hp2 a ha
      exact ⟨((h3 q hq').2 a).mpr ha1, ha2⟩
    have hperm := run_reposition_perm hmem (h3 q hq').1 haft2
    have hbo : (reposition_block_of_page db q element position after).block_order q
        = run_reposition (db.block_order q) element position after := by
      simp [reposition_block_of_page]
    refine ⟨?_, fun b => ?_⟩
    · rw [hbo]
      exact hperm.nodup_iff.mpr (h3 q hq').1
    · rw [hbo, hperm.mem_iff]
      exact (h3 q hq').2 b
  · simpa [reposition_block_of_page, hq2] using h3 q hq'

theorem inv_move_pages {db : DB} (actor src dst : Nat) (pgs new_src : List Nat)
    (h : OrderInv db)
    (hsrc : db.notebook_user src = some actor) (hdst : db.notebook_user dst = some actor)
    (hne : src ≠ dst) (hnd : pgs.Nodup)
    (hbelong : ∀ p, p ∈ pgs → db.page_notebook p = some src)
    (hexc : except_removal (db.custom_page_order src) pgs new_src) :
    OrderInv (apply_move_pages db src dst pgs new_src) := by
  obtain ⟨h1, h2, h3⟩ := h
  have hsrcs : (db.notebook_user src).isSome := by simp [hsrc]
  have hdsts : (db.notebook_user dst).isSome := by simp [hdst]
  have hdstsrc : dst ≠ src := fun hh => hne hh.symm
  have hnew_mem : ∀ x, x ∈ new_src ↔ x ∈ db.custom_page_order src ∧ x ∉ pgs := by
    intro x
    rw [hexc.mem_iff]
    simp [List.mem_dedup, List.mem_filter]
  have hnew_nodup : new_src.Nodup := hexc.nodup_iff.mpr (List.nodup_dedup _)
  have hpn : ∀ p, (apply_move_pages db src dst pgs new_src).page_notebook p
      = if p ∈ pgs then some dst else db.page_notebook p := by
    intro p
    by_cases hp : p ∈ pgs
    · have hps : (db.page_notebook p).isSome := by simp [hbelong p hp]
      simp [apply_move_pages, hp, hps]
    · simp [apply_move_pages, hp]
  refine ⟨h1, fun m hm => ?_, fun q hq => ?_⟩
  · have hm' : (db.notebook_user m).isSome := hm
    by_cases hms : m = src
    · subst hms
      refine ⟨?_, fun q => ?_⟩
      · simpa [apply_move_pages] using hnew_nodup
      · rw [show (apply_move_pages db m dst pgs new_src).custom_page_order m = new_src
          from by simp [apply_move_pages]]
        rw [hnew_mem q, (h2 m hm').2 q, hpn q]
        by_cases hq : q ∈ pgs
        · simp [hq, hdstsrc]
        · simp [hq]
    · by_cases hmd : m = dst
      · subst hmd
        have hdisj : List.Disjoint (db.custom_page_order m) pgs := by
          intro a ha hpga
          have h1a : db.page_notebook a = some m := ((h2 m hm').2 a).mp ha
          have h2a : db.page_notebook a = some src := hbelong a hpga
          rw [h1a] at h2a
          exact hms (Option.some.inj h2a)
        refine ⟨?_, fun q => ?_⟩
        · rw [show (apply_move_pages db src m pgs new_src).custom_page_order m
            = db.custom_page_order m ++ pgs from by simp [apply_move_pages, hms]]
          exact (h2 m hm').1.append hnd hdisj
        · rw [show (apply_move_pages db src m pgs new_src).custom_page_order m
            = db.custom_page_order m ++ pgs from by simp [apply_move_pages, hms]]
          rw [List.mem_append, hpn q]
          by_cases hq : q ∈ pgs
          · simp [hq]
          · simp [hq, (h2 m hm').2 q]
      · refine ⟨?_, fun q => ?_⟩
        · rw [show (apply_move_pages db src dst pgs new_src).custom_page_order m
            = db.custom_page_order m from by simp [apply_move_pages, hms, hmd]]
          exact (h2 m hm').1
        · rw [show (apply_move_pages db src dst pgs new_src).custom_page_order m
            = db.custom_page_order m from by simp [apply_move_pages, hms, hmd]]
          rw [hpn q]
          have hdm : dst ≠ m := fun hh => hmd hh.symm
          by_cases hq : q ∈ pgs
          · have hqsrc : db.page_notebook q = some src := hbelong q hq
            have hsm : src ≠ m := fun hh => hms hh.symm
            simp [hq, hdm, (h2 m hm').2 q, hqsrc, hsm]
          · simp [hq, (h2 m hm').2 q]
  · have hq' : (db.page_notebook q).isSome := by
      rw [hpn q] at hq
      by_cases hqp : q ∈ pgs
      · simp [hbelong q hqp]
      · simpa [hqp] using hq
    obtain ⟨hnd3, hmem3⟩ := h3 q hq'
    exact ⟨by simpa [apply_move_pages] using hnd3,
      fun b => by simpa [apply_move_pages] using hmem3 b⟩

theorem step_valid_inv {db db' : DB} (h : OrderInv db) (s : StepValid db db') :
    OrderInv db' := by
  cases s with
  | createNotebook u nb hfresh hnp => exact inv_create_notebook u nb h hfresh hnp
  | deleteNotebook u nb hnb => exact inv_delete_notebook u nb h hnb
  | createPage nb pg hlive hfresh hnb => exact inv_create_page nb pg h hlive hfresh hnb
  | deletePage nb pg hpg => exact inv_delete_page nb pg h hpg
  | createBlock pg b hlive hfresh => exact inv_create_block pg b h hlive hfresh
  | deleteBlock pg b hb => exact inv_delete_block pg b h hb
  | repositionNotebook u element position after he haft =>
    exact inv_reposition_notebook u element position after h he haft
  | repositionPage nb element position after he haft =>
    exact inv_reposition_page nb element position after h he haft
  | repositionBlock pg element position after he haft =>
    exact inv_reposition_block pg element position after h he haft
  | movePages actor src dst pgs new_src hsrc hdst hne hnd hbelong hexc =>
    exact inv_move_pages actor src dst pgs new_src h hsrc hdst hne hnd hbelong hexc

/-- C1 (amended): after any finite sequence of Create/Delete/Reposition/Move
    operations whose arguments are valid — every repositioned id is a live
    child of the targeted parent, any after-sibling is a live child of the
    same parent distinct from the repositioned id, and moved page ids are
    pairwise distinct and belong to the source notebook — every parent's order
    sequence (custom_notebook_order, custom_page_order, block_order) contains
    no duplicates and its element set equals exactly the set of live child ids
    belonging to that parent. -/
theorem valid_ops_preserve_order_inv {db db' : DB}
    (hInv : OrderInv db) (hops : StepsValid db db') : OrderInv db' := by
  induction hops with
  | refl => exact hInv
  | tail _ _ _ hstep ih => exact step_valid_inv ih hstep

/-- Empty initial store: no rows, every ordering array empty. -/
def db0 : DB :=
  ⟨fun _ => [], fun _ => none, fun _ => [], fun _ => none, fun _ => [], fun _ => none⟩

theorem order_inv_db0 : OrderInv db0 := by
  refine ⟨fun u => ⟨List.nodup_nil, fun nb => ?_⟩, fun nb h => ?_, fun pg h => ?_⟩
  · simp [db0]
  · simp [db0] at h
  · simp [db0] at h

theorem valid_ops_preserve_order_inv_witness :
    OrderInv db0 ∧ OrderInv (create_notebook db0 0 7) :=
  ⟨order_inv_db0,
   valid_ops_preserve_order_inv order_inv_db0
     (StepsValid.tail db0 db0 (create_notebook db0 0 7) (StepsValid.refl db0)
       (StepValid.createNotebook db0 0 7 rfl (fun pg => by simp [db0])))⟩

/-- The store after repositioning the id 99 to the top of user 0's notebook
    order although no notebook row 99 exists. -/
def db_nonmember : DB := reposition_notebook db0 0 99 (some "top") none

/-- C1 (as stated, counterexample): the code admits a `Reposition` call whose
    element is not a live child — `reposition_array_element` has no membership
    check — and one such call starting from a consistent store prepends an
    orphan id, so the invariant does not hold after arbitrary operation
    sequences. -/
theorem reposition_nonmember_breaks_inv :
    OrderInv db0 ∧ Step db0 db_nonmember ∧ ¬ OrderInv db_nonmember := by
  refine ⟨order_inv_db0, Step.repositionNotebook db0 0 99 (some "top") none, ?_⟩
  intro h
  have hmem : (99 : Nat) ∈ db_nonmember.custom_notebook_order 0 := by decide
  have h99 : db_nonmember.notebook_user 99 = some 0 := ((h.1 0).2 99).mp hmem
  exact absurd h99 (by decide)

/-- Store for the move scenario: user 0 owns notebooks 10 (pages [1,2,3,4])
    and 11 (pages [5]). -/
def db_move : DB :=
  ⟨fun u => if u = 0 then [10, 11] else [],
   fun nb => if nb = 10 ∨ nb = 11 then some 0 else none,
   fun nb => if nb = 10 then [1, 2, 3, 4] else if nb = 11 then [5] else [],
   fun pg => if pg = 1 ∨ pg = 2 ∨ pg = 3 ∨ pg = 4 then some 10
     else if pg = 5 then some 11 else none,
   fun _ => [], fun _ => none⟩

/-- An admissible outcome of moving pages {2, 3} from notebook 10 to notebook
    11 in which the SQL `EXCEPT` emits the remaining source ids as [4, 1]. -/
def db_move_bad : DB := apply_move_pages db_move 10 11 [2, 3] [4, 1]

/-- C2 (behaviour at the claimed input): moving pages {p2,p3} = {2,3} from
    notebook 10 (order [1,2,3,4]) to notebook 11 (order [q1] = [5]) reassigns
    the moved pages' parent reference and appends them to the destination
    order in the order given, but the source order is rebuilt by SQL `EXCEPT`,
    whose row order is unspecified: the outcome with source order [4, 1] is
    admissible, while the claim requires exactly [1, 4]. -/
theorem move_pages_scrambles_source_order :
    move_pages db_move 0 10 11 [2, 3] db_move_bad ∧
    db_move_bad.custom_page_order 10 = [4, 1] ∧
    db_move_bad.custom_page_order 11 = [5, 2, 3] ∧
    db_move_bad.page_notebook 2 = some 11 ∧
    db_move_bad.page_notebook 3 = some 11 ∧
    db_move_bad.page_notebook 1 = some 10 ∧
    db_move_bad.page_notebook 4 = some 10 ∧
    ([4, 1] : List Nat) ≠ [1, 4] :=
  ⟨⟨by decide, by decide, by decide, [4, 1], by unfold except_removal; decide, rfl⟩,
   by decide, by decide, by decide, by decide, by decide, by decide, by decide⟩

/-- Modelled from the spec: the transaction boundary around a delete.  The
    Django transaction configuration that decides whether the two SQL
    statements of a model-level delete share one transaction lives outside
    these sources; §4.2/§5 of the spec require the row mutation and the
    sequence mutation to commit together or not at all, so a transition
    either fully applies or leaves the store untouched. -/
def run_atomic (db : DB) (f : DB → DB) (commit : Bool) : DB :=
  if commit then f db else db

/-- C3: deleting a child removes its row — cascading to all descendant rows
    for Notebook and Page — and removes its id from the immediate parent's
    order array, and under the transactional wrapper either every effect
    commits or the store is exactly the pre-delete store (sequence unchanged,
    row still present). -/
theorem delete_child_atomic (db : DB) (u nb pg b : Nat) (commit : Bool)
    (hn : db.notebook_user nb = some u)
    (hp : db.page_notebook pg = some nb)
    (hb : db.block_page b = some pg) :
    (commit = false → run_atomic db (fun d => delete_notebook d u nb) commit = db) ∧
    (commit = true →
      run_atomic db (fun d => delete_notebook d u nb) commit = delete_notebook db u nb) ∧
    nb ∉ (delete_notebook db u nb).custom_notebook_order u ∧
    (delete_notebook db u nb).notebook_user nb = none ∧
    (∀ q, db.page_notebook q = some nb → (delete_notebook db u nb).page_notebook q = none) ∧
    (∀ c q, db.block_page c = some q → db.page_notebook q = some nb →
      (delete_notebook db u nb).block_page c = none) ∧
    (commit = false → run_atomic db (fun d => delete_page d nb pg) commit = db) ∧
    (commit = true →
      run_atomic db (fun d => delete_page d nb pg) commit = delete_page db nb pg) ∧
    pg ∉ (delete_page db nb pg).custom_page_order nb ∧
    (delete_page db nb pg).page_notebook pg = none ∧
    (∀ c, db.block_page c = some pg → (delete_page db nb pg).block_page c = none) ∧
    (commit = false → run_atomic db (fun d => delete_block d pg b) commit = db) ∧
    (commit = true →
      run_atomic db (fun d => delete_block d pg b) commit = delete_block db pg b) ∧
    b ∉ (delete_block db pg b).block_order pg ∧
    (delete_block db pg b).block_page b = none := by
  refine ⟨?_, ?_, ?_, ?_, ?_, ?_, ?_, ?_, ?_, ?_, ?_, ?_, ?_, ?_, ?_⟩
  · intro hc; simp [run_atomic, hc]
  · intro hc; simp [run_atomic, hc]
  · simp [delete_notebook, mem_array_remove]
  · simp [delete_notebook]
  · intro q hq; simp [delete_notebook, hq]
  · intro c q hc hq; simp [delete_notebook, hc, hq]
  · intro hc; simp [run_atomic, hc]
  · intro hc; simp [run_atomic, hc]
  · simp [delete_page, mem_array_remove]
  · simp [delete_page]
  · intro c hc; simp [delete_page, hc]
  · intro hc; simp [run_atomic, hc]
  · intro hc; simp [run_atomic, hc]
  · simp [delete_block, mem_array_remove]
  · simp [delete_block]

/-- Store for the delete scenario: user 0 owns notebook 1, which holds page 2,
    which holds block 3. -/
def db_chain : DB :=
  ⟨fun u => if u = 0 then [1] else [],
   fun nb => if nb = 1 then some 0 else none,
   fun nb => if nb = 1 then [2] else [],
   fun pg => if pg = 2 then some 1 else none,
   fun pg => if pg = 2 then [3] else [],
   fun c => if c = 3 then some 2 else none⟩

theorem delete_child_atomic_witness :
    (db_chain.notebook_user 1 = some 0 ∧ db_chain.page_notebook 2 = some 1 ∧
      db_chain.block_page 3 = some 2) ∧
    (delete_page db_chain 1 2).page_notebook 2 = none ∧
    (2 : Nat) ∉ (delete_page db_chain 1 2).custom_page_order 1 :=
  ⟨⟨rfl, rfl, rfl⟩,
   (delete_child_atomic db_chain 0 1 2 3 true rfl rfl rfl).2.2.2.2.2.2.2.2.2.1,
   (delete_child_atomic db_chain 0 1 2 3 true rfl rfl rfl).2.2.2.2.2.2.2.2.1⟩

/- Row types for the snapshot builders of the two `perform_destroy` overrides
   (api/views.py) and the serializers they use (api/serializers.py).
   Timestamp columns and the opaque preference/metadata JSON blobs are not
   modelled; `deleted_on` appears on recycle-bin rows as a natural number
   because the listing order depends on it. -/
structure BlockRow where
  id : Nat
  page_id : Nat
  block_type : String
  content : String
deriving DecidableEq

structure PageRow where
  id : Nat
  notebook_id : Nat
  title : String
  block_order : List Nat
deriving DecidableEq

structure NotebookRow where
  id : Nat
  user_id : Nat
  title : String
  custom_page_order : List Nat
deriving DecidableEq

/-- Output fields of `BlockReadSerializer` (api/serializers.py): id,
    block_type, content (metadata elided). -/
structure BlockReadData where
  id : Nat
  block_type : String
  content : String
deriving DecidableEq

def BlockReadSerializer (b : BlockRow) : BlockReadData :=
  ⟨b.id, b.block_type, b.content⟩

/-- The recycle-bin `item` JSON written for a deleted page:
    `PageReadSerializer` with `include_block_list` (id, notebook pk, title,
    `blocks` sourced from `block_order`) plus the `block_items` key added by
    `PageDetailView.perform_destroy`. -/
structure PageSnapshotData where
  id : Nat
  notebook : Nat
  title : String
  blocks : List Nat
  block_items : List BlockReadData
deriving DecidableEq

/-- Snapshot document built by `PageDetailView.perform_destroy`
    (api/views.py): the serialized page plus one `BlockReadSerializer` entry
    per row of `instance.blocks.all()`, enumerated in table order. -/
def page_destroy_snapshot (p : PageRow) (block_table : List BlockRow) : PageSnapshotData :=
  ⟨p.id, p.notebook_id, p.title, p.block_order,
   (block_table.filter (fun b => b.page_id == p.id)).map BlockReadSerializer⟩

/-- The recycle-bin `item` JSON written for a deleted notebook:
    `NotebookDetailSerializer` with `include_page_list` — its fields are id,
    title (timestamps and preferences elided) and `pages`, the id/title pairs
    of `instance.pages.all()`; the serializer has no field reading
    `custom_page_order` — plus the `page_items` key added by
    `NotebookViewSet.perform_destroy`. -/
structure NotebookSnapshotData where
  id : Nat
  title : String
  pages : List (Nat × String)
  page_items : List PageSnapshotData
deriving DecidableEq

/-- Snapshot document built by `NotebookViewSet.perform_destroy`
    (api/views.py): the serialized notebook plus one page snapshot per row of
    `instance.pages.all()`, enumerated in table order. -/
def notebook_destroy_snapshot (nb : NotebookRow) (page_table : List PageRow)
    (block_table : List BlockRow) : NotebookSnapshotData :=
  ⟨nb.id, nb.title,
   (page_table.filter (fun p => p.notebook_id == nb.id)).map (fun p => (p.id, p.title)),
   (page_table.filter (fun p => p.notebook_id == nb.id)).map
     (fun p => page_destroy_snapshot p block_table)⟩

inductive SnapshotItem
  | notebook (s : NotebookSnapshotData)
  | page (s : PageSnapshotData)
deriving DecidableEq

/-- A row of the `NotesRecycleBin` table (api/models.py). -/
structure NotesRecycleBinRow where
  user : Nat
  notebook_id : Nat
  notebook_title : String
  item_type : String
  item : SnapshotItem
  deleted_on : Nat
deriving DecidableEq

/-- `NotebookViewSet.perform_destroy` (api/views.py): inside one
    `transaction.atomic` block it creates exactly one recycle-bin row of
    item_type "notebook" holding the snapshot, then deletes the notebook
    row (with its cascade). -/
def notebook_perform_destroy (bin : List NotesRecycleBinRow) (actor : Nat)
    (nb : NotebookRow) (page_table : List PageRow) (block_table : List BlockRow)
    (now : Nat) : List NotesRecycleBinRow :=
  bin ++ [⟨actor, nb.id, nb.title, "notebook",
    SnapshotItem.notebook (notebook_destroy_snapshot nb page_table block_table), now⟩]

/-- `PageDetailView.perform_destroy` (api/views.py): inside one
    `transaction.atomic` block it creates exactly one recycle-bin row of
    item_type "page" — recording the owning notebook's id and title — holding
    the snapshot, then deletes the page row (with its cascade). -/
def page_perform_destroy (bin : List NotesRecycleBinRow) (actor : Nat)
    (p : PageRow) (owning : NotebookRow) (block_table : List BlockRow)
    (now : Nat) : List NotesRecycleBinRow :=
  bin ++ [⟨actor, owning.id, owning.title, "page",
    SnapshotItem.page (page_destroy_snapshot p block_table), now⟩]

/-- Page rows of the snapshot scenario: pages 1 and 2 of notebook 10, in
    table (creation) order [1, 2]. -/
def c4_page_table : List PageRow :=
  [⟨1, 10, "p1", []⟩, ⟨2, 10, "p2", []⟩]

/-- Notebook 10 with its pages repositioned so that `custom_page_order` is
    [2, 1], the reverse of table order. -/
def c4_notebook : NotebookRow := ⟨10, 0, "nb", [2, 1]⟩

/-- The same notebook row with the un-repositioned page order [1, 2]. -/
def c4_notebook_swapped : NotebookRow := ⟨10, 0, "nb", [1, 2]⟩

/-- C4 (behaviour at the failing input): deleting a page writes exactly one
    recycle-bin entry of item_type "page" whose snapshot carries the page's
    pre-delete `block_order`, and deleting a notebook writes exactly one entry
    of item_type "notebook"; but the notebook snapshot omits
    `custom_page_order` and enumerates pages in table order, so two pre-delete
    states that differ only in the notebook's page order produce identical
    snapshots — the pre-delete page order is not contained in the snapshot. -/
theorem notebook_snapshot_loses_page_order :
    (page_destroy_snapshot ⟨9, 10, "pg", [7, 6]⟩ []).blocks = [7, 6] ∧
    (page_perform_destroy [] 0 ⟨9, 10, "pg", [7, 6]⟩ c4_notebook [] 5).length = 1 ∧
    (page_perform_destroy [] 0 ⟨9, 10, "pg", [7, 6]⟩ c4_notebook [] 5).map
      (fun r => r.item_type) = ["page"] ∧
    (notebook_perform_destroy [] 0 c4_notebook c4_page_table [] 5).length = 1 ∧
    (notebook_perform_destroy [] 0 c4_notebook c4_page_table [] 5).map
      (fun r => r.item_type) = ["notebook"] ∧
    c4_notebook.custom_page_order ≠ c4_notebook_swapped.custom_page_order ∧
    notebook_destroy_snapshot c4_notebook c4_page_table []
      = notebook_destroy_snapshot c4_notebook_swapped c4_page_table [] := by
  decide

instance : IsTotal NotesRecycleBinRow (fun a b => a.deleted_on ≤ b.deleted_on) :=
  ⟨fun a b => Nat.le_total a.deleted_on b.deleted_on⟩

instance : IsTrans NotesRecycleBinRow (fun a b => a.deleted_on ≤ b.deleted_on) :=
  ⟨fun _ _ _ h1 h2 => Nat.le_trans h1 h2⟩

/-- `NotesRecycleBinViewSet.get_queryset` (api/views.py):
    `NotesRecycleBin.objects.filter(user=request.user).order_by("deleted_on")`.
    `ORDER BY deleted_on` guarantees an ascending arrangement of the filtered
    rows (ties in an unspecified order); insertion sort realizes it. -/
def recyclebin_get_queryset (rows : List NotesRecycleBinRow) (u : Nat) :
    List NotesRecycleBinRow :=
  List.insertionSort (fun a b => a.deleted_on ≤ b.deleted_on)
    (rows.filter (fun r => r.user == u))

/-- C8: the recycle-bin listing returns exactly the requesting user's entries,
    arranged by deletion time ascending (oldest first). -/
theorem recyclebin_sorted_by_deleted_on (rows : List NotesRecycleBinRow) (u : Nat) :
    List.Sorted (fun a b => a.deleted_on ≤ b.deleted_on) (recyclebin_get_queryset rows u) ∧
    List.Perm (recyclebin_get_queryset rows u) (rows.filter (fun r => r.user == u)) ∧
    (∀ r, r ∈ recyclebin_get_queryset rows u ↔ r ∈ rows ∧ r.user = u) := by
  refine ⟨List.sorted_insertionSort _ _, List.perm_insertionSort _ _, fun r => ?_⟩
  rw [recyclebin_get_queryset, (List.perm_insertionSort _ _).mem_iff]
  simp [List.mem_filter]

/-- The `restore` action of `NotesRecycleBinViewSet` (api/views.py): its body
    raises `NotImplementedError` unconditionally, before reading or writing
    any row. -/
def recyclebin_restore (rows : List NotesRecycleBinRow) (entry_id : Nat) :
    Except String (List NotesRecycleBinRow) :=
  Except.error "NotImplementedError"

/-- The recycle-bin table after a restore request: unchanged whenever the
    action raises. -/
def run_restore (rows : List NotesRecycleBinRow) (entry_id : Nat) :
    List NotesRecycleBinRow :=
  match recyclebin_restore rows entry_id with
  | Except.ok rows' => rows'
  | Except.error _ => rows

/-- C9: invoking Restore on any recycle-bin entry fails with the
    unimplemented error and leaves the recycle-bin rows unchanged (the raise
    happens before any other statement, so no rows are recreated and the
    entry is not deleted). -/
theorem restore_unimplemented (rows : List NotesRecycleBinRow) (entry_id : Nat) :
    recyclebin_restore rows entry_id = Except.error "NotImplementedError" ∧
    run_restore rows entry_id = rows :=
  ⟨rfl, rfl⟩
